import Mathlib

/-!
Verification development for the dash-restful REST client library.

The TypeScript source (src/lib/DashApi.ts) is shallowly embedded:
JavaScript objects become association lists with insertion-order
semantics, promises become an explicit `Outcome` type, the `fetch`
transport becomes a function parameter, and middlewares become Lean
functions on `RequestData`.
-/

namespace DashRestful

/-- Assignment `m[k] = v` on a JavaScript object: if the key exists its
value is updated in place (keeping its position), otherwise the pair is
appended at the end. -/
def objSet : List (String × α) → String → α → List (String × α)
  | [], k, v => [(k, v)]
  | kv :: rest, k, v => if kv.1 = k then (k, v) :: rest else kv :: objSet rest k v

/-- Property read `m[k]` on a JavaScript object. -/
def objGet : List (String × α) → String → Option α
  | [], _ => none
  | kv :: rest, k => if kv.1 = k then some kv.2 else objGet rest k

/-- Object spread `{...a, ...b}`: each key of `b` is assigned onto `a`
in order. -/
def objMerge (a b : List (String × α)) : List (String × α) :=
  b.foldl (fun acc kv => objSet acc kv.1 kv.2) a

/-- Element of an `Array<number | string>` value inside `HttpParams`. -/
inductive HttpItem where
  | num (n : Int)
  | str (s : String)
deriving DecidableEq

/-- Value type of the `HttpParams` record from DashApi.ts:
`number | string | Array<number | string> | undefined | null`. -/
inductive HttpValue where
  | num (n : Int)
  | str (s : String)
  | arr (items : List HttpItem)
  | null
  | undef
deriving DecidableEq

/-- `HttpParams`: a JavaScript record from string keys to `HttpValue`,
kept as an association list in key-insertion order. -/
abbrev HttpParams := List (String × HttpValue)

/-- JavaScript `Array.prototype.join(sep)`. -/
def joinSep (sep : String) : List String → String
  | [] => ""
  | [s] => s
  | s :: rest => s ++ sep ++ joinSep sep rest

/-- JavaScript `String(v)` on a scalar array element. -/
def HttpItem.toStr : HttpItem → String
  | .num n => toString n
  | .str s => s

/-- The `concatedParams` accumulator of `urlParams`: drop null, undefined
and empty-string values; join array values with `,`; stringify scalars. -/
def concatedParams (params : HttpParams) : List (String × String) :=
  params.foldl (fun acc kv =>
    match kv.2 with
    | HttpValue.null => acc
    | HttpValue.undef => acc
    | HttpValue.str "" => acc
    | HttpValue.num n => objSet acc kv.1 (toString n)
    | HttpValue.str s => objSet acc kv.1 s
    | HttpValue.arr items => objSet acc kv.1 (joinSep "," (items.map HttpItem.toStr))) []

/-- Characters that `encodeURIComponent` leaves unescaped. -/
def isUnreservedChar (c : Char) : Bool :=
  c.isAlpha || c.isDigit ||
    List.contains ['-', '_', '.', '!', '~', '*', Char.ofNat 39, '(', ')'] c

/-- Uppercase hexadecimal digit for `n < 16`. -/
def hexDigitChar (n : Nat) : Char :=
  if n < 10 then Char.ofNat (48 + n) else Char.ofNat (55 + n)

/-- UTF-8 byte sequence of a Unicode scalar value. -/
def utf8Bytes (n : Nat) : List Nat :=
  if n < 128 then [n]
  else if n < 2048 then [192 + n / 64, 128 + n % 64]
  else if n < 65536 then [224 + n / 4096, 128 + n / 64 % 64, 128 + n % 64]
  else [240 + n / 262144, 128 + n / 4096 % 64, 128 + n / 64 % 64, 128 + n % 64]

/-- Percent escape `%XX` of one byte. -/
def pctEncByte (b : Nat) : List Char :=
  ['%', hexDigitChar (b / 16), hexDigitChar (b % 16)]

/-- Encoding of a single character under `encodeURIComponent`. -/
def encodeChar (c : Char) : List Char :=
  if isUnreservedChar c then [c]
  else ((utf8Bytes c.toNat).map pctEncByte).foldr (· ++ ·) []

/-- Character-list version of `encodeURIComponent`. -/
def encodeChars : List Char → List Char
  | [] => []
  | c :: rest => encodeChar c ++ encodeChars rest

/-- JavaScript `encodeURIComponent`. -/
def encodeURIComponent (s : String) : String :=
  String.mk (encodeChars s.data)

/-- The `urlParams` query-string encoder of DashApi.ts. -/
def urlParams (params : HttpParams) : String :=
  joinSep "&" ((concatedParams params).map (fun kv =>
    encodeURIComponent kv.1 ++ "=" ++ encodeURIComponent kv.2))

/-- Trailing-slash trim performed by the `DashAPI` constructor:
`baseUrl.endsWith('/') ? baseUrl.slice(0, -1) : baseUrl`. -/
def trimBase (s : String) : String :=
  if s.data.getLast? = some '/' then String.mk s.data.dropLast else s

/-- The `getUrl` method body over an explicit stored base url. -/
def getUrl (baseUrl path : String) (params : Option HttpParams) : String :=
  let qs := params.map urlParams
  baseUrl ++ "/" ++ path ++
    (match qs with
     | some q => if q = "" then "" else "?" ++ q
     | none => "")

/-- JSON values, the payload type of request bodies. -/
inductive Json where
  | null
  | bool (b : Bool)
  | num (n : Int)
  | str (s : String)
  | arr (items : List Json)
  | obj (fields : List (String × Json))

mutual

/-- JavaScript `JSON.stringify`. -/
def Json.stringify : Json → String
  | .null => "null"
  | .bool true => "true"
  | .bool false => "false"
  | .num n => toString n
  | .str s => "\x22" ++ s ++ "\x22"
  | .arr items => "[" ++ Json.stringifyItems items ++ "]"
  | .obj fields => "\x7b" ++ Json.stringifyFields fields ++ "\x7d"

/-- Comma-joined serialization of JSON array elements. -/
def Json.stringifyItems : List Json → String
  | [] => ""
  | [j] => Json.stringify j
  | j :: rest => Json.stringify j ++ "," ++ Json.stringifyItems rest

/-- Comma-joined serialization of JSON object fields. -/
def Json.stringifyFields : List (String × Json) → String
  | [] => ""
  | [(k, v)] => "\x22" ++ k ++ "\x22:" ++ Json.stringify v
  | (k, v) :: rest => "\x22" ++ k ++ "\x22:" ++ Json.stringify v ++ "," ++ Json.stringifyFields rest

end

/-- Binary payload, the model of a `Blob`. -/
structure Blob where
  bytes : List Nat
deriving DecidableEq

/-- `ApiRequestFormBodyValue`: `string | number | \x7b file: Blob; filename: string \x7d`. -/
inductive FormBodyValue where
  | str (s : String)
  | num (n : Int)
  | file (blob : Blob) (filename : String)
deriving DecidableEq

/-- `ApiRequestFormBody`: record from field name to `FormBodyValue`. -/
abbrev ApiRequestFormBody := List (String × FormBodyValue)

/-- One entry appended to a `FormData` payload. -/
inductive FormPart where
  | field (name value : String)
  | filePart (name : String) (blob : Blob) (filename : String)
deriving DecidableEq

/-- The `FormData` built by `request` for a `formBody` config: fields are
appended in key iteration order; `\x7bfile, filename\x7d` pairs become named
file parts, all other values their string form. -/
def buildFormData (formBody : ApiRequestFormBody) : List FormPart :=
  formBody.foldl (fun acc kv =>
    match kv.2 with
    | FormBodyValue.file blob filename => acc ++ [FormPart.filePart kv.1 blob filename]
    | FormBodyValue.str s => acc ++ [FormPart.field kv.1 s]
    | FormBodyValue.num n => acc ++ [FormPart.field kv.1 (toString n)]) []

/-- A request body as handed to the transport. -/
inductive BodyValue where
  | jsonText (s : String)
  | formData (parts : List FormPart)
deriving DecidableEq

/-- Value stored under one key of a `RequestInit` options object. -/
inductive OptValue where
  | str (s : String)
  | headers (h : List (String × String))
  | body (b : BodyValue)
deriving DecidableEq

/-- `RequestInit`: the transport options object, modelled as a JavaScript
object from field name to value. -/
abbrev RequestInit := List (String × OptValue)

/-- `RequestData`: the unit threaded through the middleware chain. -/
structure RequestData where
  path : String
  params : Option HttpParams
  options : RequestInit

/-- `Middleware`: a function from `RequestData` to `RequestData`. -/
abbrev Middleware := RequestData → RequestData

/-- A transport response: its numeric status and the result of decoding
its body as JSON (`Except.error` when the body is malformed). -/
structure Response where
  status : Nat
  jsonBody : Except Unit Json

/-- Reason carried by a rejected promise. -/
inductive RejectReason where
  | response (r : Response)
  | decodeFailure
  | custom (j : Json)

/-- Settled state of the promise returned by `request`: resolved with
`undefined` (`none`) or a JSON value, or rejected. -/
inductive Outcome where
  | resolved (value : Option Json)
  | rejected (reason : RejectReason)

/-- `ErrorHandler = (res: Response) => Promise<never>`: per its declared
type the handler's promise can only reject, so it is modelled as
producing the rejection reason. -/
abbrev ErrorHandler := Response → RejectReason

/-- `ApiConfig` passed to the `DashAPI` constructor. -/
structure ApiConfig where
  errorHandler : Option ErrorHandler := none
  options : Option RequestInit := none

/-- `ApiRequestConfig` accepted by `request`. -/
structure ApiRequestConfig where
  params : Option HttpParams := none
  body : Option Json := none
  formBody : Option ApiRequestFormBody := none
  form : Option Bool := none

/-- The headers object computed by `request` before dispatch: empty, with
`Content-Type: application/json` added only in the JSON-body branch. -/
def requestHeaders (config : Option ApiRequestConfig) : List (String × String) :=
  match config.bind ApiRequestConfig.body with
  | some _ => objSet [] "Content-Type" "application/json"
  | none => []

/-- The header/option construction of `request` before the middleware
chain: `\x7b...this.config?.options, method\x7d`, then the body-encoding
branch (`body` takes precedence over `formBody`), then
`options['headers'] = headers`. -/
def buildRequestData (base : RequestInit) (path method : String)
    (config : Option ApiRequestConfig) : RequestData :=
  let headers : List (String × String) := []
  let options : RequestInit := objSet base "method" (OptValue.str method)
  let step : List (String × String) × RequestInit :=
    match config.bind ApiRequestConfig.body with
    | some b =>
        (objSet headers "Content-Type" "application/json",
         objSet options "body" (OptValue.body (BodyValue.jsonText (Json.stringify b))))
    | none =>
        match config.bind ApiRequestConfig.formBody with
        | some fb =>
            (headers, objSet options "body" (OptValue.body (BodyValue.formData (buildFormData fb))))
        | none => (headers, options)
  { path := path
    params := config.bind ApiRequestConfig.params
    options := objSet step.2 "headers" (OptValue.headers step.1) }

/-- The `forEach` loop over `this.middlewares`, reassigning `requestData`. -/
def applyMiddlewares (mws : List Middleware) (rd : RequestData) : RequestData :=
  match mws with
  | [] => rd
  | m :: rest => applyMiddlewares rest (m rd)

/-- The status-code dispatch at the end of `request`. -/
def dispatch (errorHandler : Option ErrorHandler) (response : Response) : Outcome :=
  if response.status = 204 then Outcome.resolved none
  else if 200 ≤ response.status ∧ response.status ≤ 299 then
    match response.jsonBody with
    | Except.ok j => Outcome.resolved (some j)
    | Except.error _ => Outcome.rejected RejectReason.decodeFailure
  else
    match errorHandler with
    | some h => Outcome.rejected (h response)
    | none => Outcome.rejected (RejectReason.response response)

/-- Outcome of `response.json()` alone, as returned on the 2xx path. -/
def Response.jsonOutcome (r : Response) : Outcome :=
  match r.jsonBody with
  | Except.ok j => Outcome.resolved (some j)
  | Except.error _ => Outcome.rejected RejectReason.decodeFailure

/-- The `fetch` collaborator, modelled as a function from url and options
to the response. -/
abbrev Transport := String → RequestInit → Response

/-- A `DashAPI` instance: stored (trimmed) base url, construction config,
and the registered middleware list. -/
structure DashAPI where
  baseUrl : String
  config : Option ApiConfig
  middlewares : List Middleware

/-- The `DashAPI` constructor: trims one trailing slash off the base url
and starts with no middlewares. -/
def DashAPI.create (baseUrl : String) (config : Option ApiConfig) : DashAPI :=
  { baseUrl := trimBase baseUrl, config := config, middlewares := [] }

/-- `addMiddleware`: push onto the middleware list. -/
def DashAPI.addMiddleware (api : DashAPI) (m : Middleware) : DashAPI :=
  { api with middlewares := api.middlewares ++ [m] }

/-- The `getUrl` method. -/
def DashAPI.getUrl (api : DashAPI) (path : String) (params : Option HttpParams) : String :=
  DashRestful.getUrl api.baseUrl path params

/-- `this.config?.options` as spread into the request options. -/
def DashAPI.baseOptions (api : DashAPI) : RequestInit :=
  (api.config.bind ApiConfig.options).getD []

/-- The final `RequestData` of a `request` call: the built data passed
through the middleware chain in registration order. -/
def DashAPI.requestData (api : DashAPI) (path method : String)
    (config : Option ApiRequestConfig) : RequestData :=
  applyMiddlewares api.middlewares (buildRequestData api.baseOptions path method config)

/-- Url handed to the transport by a `request` call. -/
def DashAPI.sentUrl (api : DashAPI) (path method : String)
    (config : Option ApiRequestConfig) : String :=
  DashRestful.getUrl api.baseUrl (api.requestData path method config).path
    (api.requestData path method config).params

/-- Options object handed to the transport by a `request` call. -/
def DashAPI.sentOptions (api : DashAPI) (path method : String)
    (config : Option ApiRequestConfig) : RequestInit :=
  (api.requestData path method config).options

/-- The `request` method: build, run middlewares, fetch, dispatch. -/
def DashAPI.request (api : DashAPI) (path method : String)
    (config : Option ApiRequestConfig) (transport : Transport) : Outcome :=
  dispatch (api.config.bind ApiConfig.errorHandler)
    (transport (api.sentUrl path method config) (api.sentOptions path method config))

/-- The `get` shortcut: `request(path, 'GET', \x7b params \x7d)`. -/
def DashAPI.get (api : DashAPI) (path : String) (params : Option HttpParams)
    (transport : Transport) : Outcome :=
  api.request path "GET" (some { params := params }) transport

/-- A `DashResource`: owning api, entity name and default params. -/
structure DashResource where
  api : DashAPI
  name : String
  params : Option HttpParams

/-- `mergeParams`: `\x7b...(this.params ?? \x7b\x7d), ...(params ?? \x7b\x7d)\x7d`. -/
def DashResource.mergeParams (r : DashResource) (params : Option HttpParams) : HttpParams :=
  objMerge (r.params.getD []) (params.getD [])

/-- `Resource.list`: GET to `\x7bname\x7d/` with merged params. -/
def DashResource.list (r : DashResource) (params : Option HttpParams)
    (transport : Transport) : Outcome :=
  r.api.get (r.name ++ "/") (some (r.mergeParams params)) transport

/-- `Resource.retrieve`: GET to `\x7bname\x7d/\x7bid\x7d/` with the resource
default params only. -/
def DashResource.retrieve (r : DashResource) (id : Int) (transport : Transport) : Outcome :=
  r.api.get (r.name ++ "/" ++ toString id ++ "/") r.params transport

/-- Headers object read back from an options object (absent or
non-object values read as empty, as object spread does). -/
def headersOf (options : RequestInit) : List (String × String) :=
  match objGet options "headers" with
  | some (OptValue.headers h) => h
  | _ => []

/-- A middleware that sets one header, spreading the previous headers:
`(data) => (\x7b...data, options: \x7b...data.options, headers:
\x7b...data.options.headers, [k]: v\x7d\x7d\x7d)`. -/
def setHeaderMw (k v : String) : Middleware := fun rd =>
  { rd with options := objSet rd.options "headers" (OptValue.headers (objSet (headersOf rd.options) k v)) }

theorem objGet_objSet_self (m : List (String × α)) (k : String) (v : α) :
    objGet (objSet m k v) k = some v := by
  induction m with
  | nil => simp [objSet, objGet]
  | cons kv rest ih =>
    by_cases h : kv.1 = k
    · simp [objSet, objGet, h]
    · simp [objSet, objGet, h, ih]

theorem objGet_objSet_ne (m : List (String × α)) (k k2 : String) (v : α) (h : k2 ≠ k) :
    objGet (objSet m k v) k2 = objGet m k2 := by
  induction m with
  | nil =>
    have hne : ¬ k = k2 := fun hh => h hh.symm
    simp [objSet, objGet, hne]
  | cons kv rest ih =>
    by_cases hk : kv.1 = k
    · subst hk
      have h2 : ¬ kv.1 = k2 := fun hh => h hh.symm
      simp [objSet, objGet, h2]
    · simp [objSet, objGet, hk, ih]

theorem objGet_eq_none (m : List (String × α)) (k : String) (h : k ∉ m.map Prod.fst) :
    objGet m k = none := by
  induction m with
  | nil => rfl
  | cons kv rest ih =>
    simp only [List.map_cons, List.mem_cons] at h
    push_neg at h
    have h1 : ¬ kv.1 = k := fun hh => h.1 hh.symm
    simp [objGet, h1, ih h.2]

theorem objGet_objMerge (p : List (String × α)) (k : String)
    (hnd : (p.map Prod.fst).Nodup) :
    ∀ d, objGet (objMerge d p) k = (objGet p k).orElse (fun _ => objGet d k) := by
  induction p with
  | nil => intro d; simp [objMerge, objGet, Option.orElse]
  | cons kv rest ih =>
    intro d
    simp only [List.map_cons, List.nodup_cons] at hnd
    have hfold : objMerge d (kv :: rest) = objMerge (objSet d kv.1 kv.2) rest := rfl
    rw [hfold]
    by_cases h : kv.1 = k
    · subst h
      rw [ih hnd.2 (objSet d kv.1 kv.2)]
      rw [objGet_eq_none rest kv.1 hnd.1]
      simp [objGet, objGet_objSet_self]
    · rw [ih hnd.2 (objSet d kv.1 kv.2)]
      rw [objGet_objSet_ne d kv.1 k kv.2 (fun hh => h hh.symm)]
      simp [objGet, h]

theorem applyMiddlewares_eq_foldl (mws : List Middleware) (rd : RequestData) :
    applyMiddlewares mws rd = mws.foldl (fun r m => m r) rd := by
  induction mws generalizing rd with
  | nil => rfl
  | cons m rest ih => simp [applyMiddlewares, List.foldl, ih]

theorem headersOf_objSet (opts : RequestInit) (hs : List (String × String)) :
    headersOf (objSet opts "headers" (OptValue.headers hs)) = hs := by
  simp [headersOf, objGet_objSet_self]

theorem setHeaderMw_path (k v : String) (rd : RequestData) :
    (setHeaderMw k v rd).path = rd.path := rfl

theorem setHeaderMw_params (k v : String) (rd : RequestData) :
    (setHeaderMw k v rd).params = rd.params := rfl

theorem headersOf_setHeaderMw (k v : String) (rd : RequestData) :
    headersOf (setHeaderMw k v rd).options = objSet (headersOf rd.options) k v := by
  simp [setHeaderMw, headersOf_objSet]

theorem buildFormData_eq_map (fb : ApiRequestFormBody) :
    buildFormData fb = fb.map (fun kv =>
      match kv.2 with
      | FormBodyValue.file blob filename => FormPart.filePart kv.1 blob filename
      | FormBodyValue.str s => FormPart.field kv.1 s
      | FormBodyValue.num n => FormPart.field kv.1 (toString n)) := by
  have gen : ∀ (l : ApiRequestFormBody) (acc : List FormPart),
      (l.foldl (fun acc kv =>
        match kv.2 with
        | FormBodyValue.file blob filename => acc ++ [FormPart.filePart kv.1 blob filename]
        | FormBodyValue.str s => acc ++ [FormPart.field kv.1 s]
        | FormBodyValue.num n => acc ++ [FormPart.field kv.1 (toString n)]) acc) =
      acc ++ l.map (fun kv =>
        match kv.2 with
        | FormBodyValue.file blob filename => FormPart.filePart kv.1 blob filename
        | FormBodyValue.str s => FormPart.field kv.1 s
        | FormBodyValue.num n => FormPart.field kv.1 (toString n)) := by
    intro l
    induction l with
    | nil => intro acc; simp
    | cons kv rest ih =>
      intro acc
      rcases kv with ⟨k, v⟩
      cases v <;> simp [List.foldl, ih]
  exact gen fb []

/-- C6: `urlParams` drops keys whose value is null, undefined or the
empty string, joins array values elementwise with `,`, stringifies other
values, percent-encodes each surviving key and value joined with `=`,
joins the pairs with `&` in iteration order, returns the empty string
when nothing survives, and on the example input produces exactly
`a=1&b=2&c=3%2C4%2C5&d=a%2Cb%2Cc&h%2Bi=h%2Bi`. -/
theorem urlParams_spec :
    (∀ (k : String) (rest : HttpParams), urlParams ((k, HttpValue.null) :: rest) = urlParams rest) ∧
    (∀ (k : String) (rest : HttpParams), urlParams ((k, HttpValue.undef) :: rest) = urlParams rest) ∧
    (∀ (k : String) (rest : HttpParams), urlParams ((k, HttpValue.str "") :: rest) = urlParams rest) ∧
    (∀ params : HttpParams, concatedParams params = [] → urlParams params = "") ∧
    (∀ params : HttpParams, urlParams params =
      joinSep "&" ((concatedParams params).map (fun kv =>
        encodeURIComponent kv.1 ++ "=" ++ encodeURIComponent kv.2))) ∧
    urlParams [("a", HttpValue.num 1), ("b", HttpValue.str "2"),
      ("c", HttpValue.arr [HttpItem.num 3, HttpItem.num 4, HttpItem.num 5]),
      ("d", HttpValue.arr [HttpItem.str "a", HttpItem.str "b", HttpItem.str "c"]),
      ("e", HttpValue.null), ("f", HttpValue.undef), ("g", HttpValue.str ""),
      ("h+i", HttpValue.str "h+i")] = "a=1&b=2&c=3%2C4%2C5&d=a%2Cb%2Cc&h%2Bi=h%2Bi" := by
  refine ⟨fun k rest => rfl, fun k rest => rfl, fun k rest => rfl, ?_, fun params => rfl, by decide⟩
  intro params h
  simp [urlParams, h, joinSep]

/-- Witness for C6 at a concrete input whose only pair is filtered out. -/
theorem urlParams_spec_witness : urlParams [("e", HttpValue.null)] = "" :=
  urlParams_spec.2.2.2.1 [("e", HttpValue.null)] rfl

/-- C8: the constructor strips exactly one trailing slash when present
and stores the base url as-is otherwise; `getUrl` concatenates stored
base, one separator and the path, appending `?` plus the encoded query
only when params are supplied and encode non-empty; a double separator
at the junction can only come from an input base ending in two slashes;
and `getUrl('')` on a client built from `https://server/` yields
`https://server/`. -/
theorem getUrl_spec :
    (∀ s : String, s.data.getLast? = some '/' → trimBase s = String.mk s.data.dropLast) ∧
    (∀ s : String, s.data.getLast? ≠ some '/' → trimBase s = s) ∧
    (∀ b p : String, getUrl b p none = b ++ "/" ++ p) ∧
    (∀ (b p : String) (q : HttpParams), urlParams q = "" → getUrl b p (some q) = b ++ "/" ++ p) ∧
    (∀ (b p : String) (q : HttpParams), urlParams q ≠ "" →
      getUrl b p (some q) = b ++ "/" ++ p ++ "?" ++ urlParams q) ∧
    (∀ s : String, (trimBase s).data.getLast? = some '/' →
      s.data.getLast? = some '/' ∧ s.data.dropLast.getLast? = some '/') ∧
    (DashAPI.create "https://server/" none).getUrl "" none = "https://server/" := by
  refine ⟨?_, ?_, ?_, ?_, ?_, ?_, by decide⟩
  · intro s h
    rw [trimBase, if_pos h]
  · intro s h
    rw [trimBase, if_neg h]
  · intro b p
    simp [getUrl]
  · intro b p q h
    simp [getUrl, h]
  · intro b p q h
    simp [getUrl, h, String.append_assoc]
  · intro s h
    by_cases hs : s.data.getLast? = some '/'
    · rw [trimBase, if_pos hs] at h
      exact ⟨hs, h⟩
    · rw [trimBase, if_neg hs] at h
      exact absurd h hs

/-- Witness for C8 at a concrete base url with a trailing slash. -/
theorem getUrl_spec_witness : trimBase "ab/" = String.mk "ab/".data.dropLast :=
  getUrl_spec.1 "ab/" (by decide)

/-- C10: the `form` flag of `ApiRequestConfig` is never read: request
invocations differing only in `form` build the same `RequestData` and
produce the same outcome. -/
theorem form_flag_no_effect :
    ∀ (api : DashAPI) (path method : String) (c : ApiRequestConfig)
      (f1 f2 : Option Bool) (transport : Transport),
      api.requestData path method (some { c with form := f1 }) =
        api.requestData path method (some { c with form := f2 }) ∧
      api.request path method (some { c with form := f1 }) transport =
        api.request path method (some { c with form := f2 }) transport :=
  fun _ _ _ _ _ _ _ => ⟨rfl, rfl⟩

/-- C4: `list` issues a GET to `name/` with the shallow caller-wins
merge of the resource default params and the caller params, and
`retrieve` issues a GET to `name/id/` using exactly the resource default
params. -/
theorem resource_list_retrieve :
    ∀ (r : DashResource) (p : Option HttpParams) (id : Int) (transport : Transport) (k : String),
      (r.list p transport = r.api.request (r.name ++ "/") "GET"
        (some { params := some (objMerge (r.params.getD []) (p.getD [])) }) transport) ∧
      (((p.getD []).map Prod.fst).Nodup →
        objGet (objMerge (r.params.getD []) (p.getD [])) k =
          ((objGet (p.getD []) k).orElse (fun _ => objGet (r.params.getD []) k))) ∧
      (r.retrieve id transport = r.api.request (r.name ++ "/" ++ toString id ++ "/") "GET"
        (some { params := r.params }) transport) := by
  intro r p id transport k
  exact ⟨rfl, fun h => objGet_objMerge (p.getD []) k h (r.params.getD []), rfl⟩

/-- Witness for C4 with one colliding key between defaults and caller
params. -/
theorem resource_list_retrieve_witness :
    objGet (objMerge [("a", HttpValue.num 1)] [("a", HttpValue.num 2)]) "a" =
      ((objGet [("a", HttpValue.num 2)] "a").orElse
        (fun _ => objGet [("a", HttpValue.num 1)] "a")) :=
  (resource_list_retrieve
    ⟨DashAPI.create "x" none, "n", some [("a", HttpValue.num 1)]⟩
    (some [("a", HttpValue.num 2)]) 0
    (fun _ _ => ⟨200, Except.ok Json.null⟩) "a").2.1 (by decide)

/-- C1: status dispatch of `request` — 204 resolves with undefined
regardless of body; other 2xx returns the `response.json()` outcome,
resolving with the decoded body when decoding succeeds; any other status
returns the configured error handler's rejection applied to the raw
response, or rejects with the raw response when no handler is
configured. -/
theorem request_status_dispatch :
    ∀ (api : DashAPI) (path method : String) (config : Option ApiRequestConfig)
      (transport : Transport) (r : Response),
      r = transport (api.sentUrl path method config) (api.sentOptions path method config) →
      (r.status = 204 → api.request path method config transport = Outcome.resolved none) ∧
      (200 ≤ r.status → r.status ≤ 299 → r.status ≠ 204 →
        api.request path method config transport = r.jsonOutcome ∧
        ∀ j, r.jsonBody = Except.ok j →
          api.request path method config transport = Outcome.resolved (some j)) ∧
      (¬ (200 ≤ r.status ∧ r.status ≤ 299) →
        (∀ h, api.config.bind ApiConfig.errorHandler = some h →
          api.request path method config transport = Outcome.rejected (h r)) ∧
        (api.config.bind ApiConfig.errorHandler = none →
          api.request path method config transport = Outcome.rejected (RejectReason.response r))) := by
  intro api path method config transport r hr
  have hreq : api.request path method config transport =
      dispatch (api.config.bind ApiConfig.errorHandler) r := by
    rw [hr]; rfl
  refine ⟨?_, ?_, ?_⟩
  · intro h204
    rw [hreq]
    unfold dispatch
    rw [if_pos h204]
  · intro h1 h2 h3
    constructor
    · rw [hreq]
      unfold dispatch
      rw [if_neg h3, if_pos ⟨h1, h2⟩]
      rfl
    · intro j hj
      rw [hreq]
      unfold dispatch
      rw [if_neg h3, if_pos ⟨h1, h2⟩, hj]
  · intro hno
    have h204 : ¬ r.status = 204 := by
      intro h
      exact hno ⟨by omega, by omega⟩
    constructor
    · intro h hh
      rw [hreq]
      unfold dispatch
      rw [if_neg h204, if_neg hno, hh]
    · intro hh
      rw [hreq]
      unfold dispatch
      rw [if_neg h204, if_neg hno, hh]

/-- Witness for C1: a 204 response resolves with undefined. -/
theorem request_status_dispatch_witness :
    (DashAPI.create "https://server" none).request "p" "GET" none
      (fun _ _ => ⟨204, Except.ok Json.null⟩) = Outcome.resolved none :=
  (request_status_dispatch (DashAPI.create "https://server" none) "p" "GET" none
    (fun _ _ => ⟨204, Except.ok Json.null⟩) ⟨204, Except.ok Json.null⟩ rfl).1 rfl

/-- C5: every response whose status is neither 204 nor 2xx makes the
`request` call reject, with or without a configured error handler (whose
declared type `Promise<never>` only permits rejection). -/
theorem no_error_swallowed :
    ∀ (api : DashAPI) (path method : String) (config : Option ApiRequestConfig)
      (transport : Transport) (r : Response),
      r = transport (api.sentUrl path method config) (api.sentOptions path method config) →
      r.status ≠ 204 → ¬ (200 ≤ r.status ∧ r.status ≤ 299) →
      ∃ reason, api.request path method config transport = Outcome.rejected reason := by
  intro api path method config transport r hr h204 hno
  have hreq : api.request path method config transport =
      dispatch (api.config.bind ApiConfig.errorHandler) r := by
    rw [hr]; rfl
  rw [hreq]
  unfold dispatch
  rw [if_neg h204, if_neg hno]
  cases hc : api.config.bind ApiConfig.errorHandler with
  | some hnd => exact ⟨hnd r, rfl⟩
  | none => exact ⟨RejectReason.response r, rfl⟩

/-- Witness for C5: a 500 response with no handler rejects. -/
theorem no_error_swallowed_witness :
    ∃ reason, (DashAPI.create "https://server" none).request "p" "GET" none
      (fun _ _ => ⟨500, Except.ok Json.null⟩) = Outcome.rejected reason :=
  no_error_swallowed (DashAPI.create "https://server" none) "p" "GET" none
    (fun _ _ => ⟨500, Except.ok Json.null⟩) ⟨500, Except.ok Json.null⟩ rfl
    (by decide) (by decide)

/-- C2: body encoding of `request` — a JSON `body` (taking precedence
over `formBody`) sets `Content-Type: application/json` and sends the
JSON serialization; otherwise a `formBody` builds a multipart payload,
mapping each `\x7bfile, filename\x7d` field to a named file part and every
other field to its string form, with no Content-Type header; otherwise
no body is set and the headers object is empty. -/
theorem body_encoding :
    ∀ (base : RequestInit) (path method : String) (c : ApiRequestConfig),
      (∀ b, c.body = some b →
        headersOf (buildRequestData base path method (some c)).options =
          [("Content-Type", "application/json")] ∧
        objGet (buildRequestData base path method (some c)).options "body" =
          some (OptValue.body (BodyValue.jsonText (Json.stringify b)))) ∧
      (c.body = none → ∀ fb, c.formBody = some fb →
        headersOf (buildRequestData base path method (some c)).options = [] ∧
        objGet (buildRequestData base path method (some c)).options "body" =
          some (OptValue.body (BodyValue.formData (buildFormData fb))) ∧
        buildFormData fb = fb.map (fun kv =>
          match kv.2 with
          | FormBodyValue.file blob filename => FormPart.filePart kv.1 blob filename
          | FormBodyValue.str s => FormPart.field kv.1 s
          | FormBodyValue.num n => FormPart.field kv.1 (toString n))) ∧
      (c.body = none → c.formBody = none →
        headersOf (buildRequestData base path method (some c)).options = [] ∧
        objGet (buildRequestData base path method (some c)).options "body" =
          objGet base "body") := by
  intro base path method c
  refine ⟨?_, ?_, ?_⟩
  · intro b hb
    have hopts : (buildRequestData base path method (some c)).options =
        objSet (objSet (objSet base "method" (OptValue.str method)) "body"
          (OptValue.body (BodyValue.jsonText (Json.stringify b)))) "headers"
          (OptValue.headers (objSet [] "Content-Type" "application/json")) := by
      simp [buildRequestData, hb]
    rw [hopts]
    constructor
    · rw [headersOf_objSet]
      rfl
    · rw [objGet_objSet_ne _ _ _ _ (by decide), objGet_objSet_self]
  · intro hb fb hfb
    have hopts : (buildRequestData base path method (some c)).options =
        objSet (objSet (objSet base "method" (OptValue.str method)) "body"
          (OptValue.body (BodyValue.formData (buildFormData fb)))) "headers"
          (OptValue.headers []) := by
      simp [buildRequestData, hb, hfb]
    rw [hopts]
    refine ⟨?_, ?_, buildFormData_eq_map fb⟩
    · rw [headersOf_objSet]
    · rw [objGet_objSet_ne _ _ _ _ (by decide), objGet_objSet_self]
  · intro hb hfb
    have hopts : (buildRequestData base path method (some c)).options =
        objSet (objSet base "method" (OptValue.str method)) "headers"
          (OptValue.headers []) := by
      simp [buildRequestData, hb, hfb]
    rw [hopts]
    constructor
    · rw [headersOf_objSet]
    · rw [objGet_objSet_ne _ _ _ _ (by decide), objGet_objSet_ne _ _ _ _ (by decide)]

/-- Witness for C2 at a concrete JSON-body request. -/
theorem body_encoding_witness :
    headersOf (buildRequestData [] "p" "POST"
        (some { body := some Json.null })).options =
      [("Content-Type", "application/json")] ∧
    objGet (buildRequestData [] "p" "POST"
        (some { body := some Json.null })).options "body" =
      some (OptValue.body (BodyValue.jsonText (Json.stringify Json.null))) :=
  (body_encoding [] "p" "POST" { body := some Json.null }).1 Json.null rfl

/-- C3: middlewares are applied as a left-to-right fold in registration
order, the transport is invoked on the final `RequestData`'s path,
params and options, and with two header-setting middlewares the
later-registered value wins on the colliding key while non-colliding
headers from either persist. -/
theorem middleware_order :
    ∀ (api : DashAPI) (path method : String) (config : Option ApiRequestConfig)
      (transport : Transport) (mws : List Middleware) (rd : RequestData)
      (kX kA kB vX1 vX2 a b : String),
      kA ≠ kX → kB ≠ kX → kB ≠ kA →
      (applyMiddlewares mws rd = mws.foldl (fun r m => m r) rd) ∧
      (api.requestData path method config =
        applyMiddlewares api.middlewares (buildRequestData api.baseOptions path method config)) ∧
      (api.request path method config transport =
        dispatch (api.config.bind ApiConfig.errorHandler)
          (transport
            (getUrl api.baseUrl (api.requestData path method config).path
              (api.requestData path method config).params)
            (api.requestData path method config).options)) ∧
      (objGet (headersOf (applyMiddlewares
          [fun d => setHeaderMw kA a (setHeaderMw kX vX1 d),
           fun d => setHeaderMw kB b (setHeaderMw kX vX2 d)] rd).options) kX = some vX2 ∧
       objGet (headersOf (applyMiddlewares
          [fun d => setHeaderMw kA a (setHeaderMw kX vX1 d),
           fun d => setHeaderMw kB b (setHeaderMw kX vX2 d)] rd).options) kA = some a ∧
       objGet (headersOf (applyMiddlewares
          [fun d => setHeaderMw kA a (setHeaderMw kX vX1 d),
           fun d => setHeaderMw kB b (setHeaderMw kX vX2 d)] rd).options) kB = some b ∧
       (applyMiddlewares
          [fun d => setHeaderMw kA a (setHeaderMw kX vX1 d),
           fun d => setHeaderMw kB b (setHeaderMw kX vX2 d)] rd).path = rd.path ∧
       (applyMiddlewares
          [fun d => setHeaderMw kA a (setHeaderMw kX vX1 d),
           fun d => setHeaderMw kB b (setHeaderMw kX vX2 d)] rd).params = rd.params) := by
  intro api path method config transport mws rd kX kA kB vX1 vX2 a b hAX hBX hBA
  refine ⟨applyMiddlewares_eq_foldl mws rd, rfl, rfl, ?_⟩
  have hfinal : applyMiddlewares
      [fun d => setHeaderMw kA a (setHeaderMw kX vX1 d),
       fun d => setHeaderMw kB b (setHeaderMw kX vX2 d)] rd =
      setHeaderMw kB b (setHeaderMw kX vX2 (setHeaderMw kA a (setHeaderMw kX vX1 rd))) := rfl
  rw [hfinal]
  rw [show headersOf (setHeaderMw kB b (setHeaderMw kX vX2
        (setHeaderMw kA a (setHeaderMw kX vX1 rd)))).options =
      objSet (objSet (objSet (objSet (headersOf rd.options) kX vX1) kA a) kX vX2) kB b by
    rw [headersOf_setHeaderMw, headersOf_setHeaderMw, headersOf_setHeaderMw, headersOf_setHeaderMw]]
  refine ⟨?_, ?_, ?_, rfl, rfl⟩
  · rw [objGet_objSet_ne _ _ _ _ (fun h => hBX h.symm)]
    exact objGet_objSet_self _ kX vX2
  · rw [objGet_objSet_ne _ _ _ _ (fun h => absurd h.symm hBA)]
    rw [objGet_objSet_ne _ _ _ _ hAX]
    exact objGet_objSet_self _ kA a
  · exact objGet_objSet_self _ kB b

/-- Witness for C3 with concrete header names and values. -/
theorem middleware_order_witness :
    objGet (headersOf (applyMiddlewares
        [fun d => setHeaderMw "X-CSRFToken" "abcdefg" (setHeaderMw "X-Test" "a" d),
         fun d => setHeaderMw "X-Other" "o" (setHeaderMw "X-Test" "b" d)]
        ⟨"path", none, []⟩).options) "X-Test" = some "b" :=
  (middleware_order (DashAPI.create "x" none) "p" "GET" none
    (fun _ _ => ⟨200, Except.ok Json.null⟩) [] ⟨"path", none, []⟩
    "X-Test" "X-CSRFToken" "X-Other" "a" "b" "abcdefg" "o"
    (by decide) (by decide) (by decide)).2.2.2.1

/-- C9 (counterexample): a base options object carrying a `body` field is
not carried through unchanged when the request supplies a JSON body, so
the claim that every field other than `method` and `headers` survives is
false. -/
theorem options_construction_counterexample :
    ¬ (objGet (buildRequestData [("body", OptValue.str "orig")] "p" "POST"
          (some { body := some Json.null })).options "body" =
        objGet [("body", OptValue.str "orig")] "body") := by
  decide

/-- C9 (amended): the request options are the construction-time base
options spread first, with `method` set on top, the body field set by
the body-encoding branch, and `headers` unconditionally replaced by the
freshly computed headers (empty, or Content-Type only); every base field
other than `method`, `headers` and `body` is carried through unchanged,
`body` itself surviving exactly when the request carries no body, and
any base `headers` value is discarded. -/
theorem options_construction :
    ∀ (base : RequestInit) (path method : String) (config : Option ApiRequestConfig),
      (∀ k, k ≠ "method" → k ≠ "headers" → k ≠ "body" →
        objGet (buildRequestData base path method config).options k = objGet base k) ∧
      (config.bind ApiRequestConfig.body = none →
        config.bind ApiRequestConfig.formBody = none →
        objGet (buildRequestData base path method config).options "body" =
          objGet base "body") ∧
      objGet (buildRequestData base path method config).options "method" =
        some (OptValue.str method) ∧
      objGet (buildRequestData base path method config).options "headers" =
        some (OptValue.headers (requestHeaders config)) ∧
      (requestHeaders config = [] ∨
        requestHeaders config = [("Content-Type", "application/json")]) := by
  intro base path method config
  rcases hb : config.bind ApiRequestConfig.body with _ | b
  · rcases hf : config.bind ApiRequestConfig.formBody with _ | fb
    · have hopts : (buildRequestData base path method config).options =
          objSet (objSet base "method" (OptValue.str method)) "headers"
            (OptValue.headers []) := by
        simp [buildRequestData, hb, hf]
      refine ⟨?_, ?_, ?_, ?_, Or.inl (by simp [requestHeaders, hb])⟩
      · intro k hm hh _
        rw [hopts, objGet_objSet_ne _ _ _ _ hh, objGet_objSet_ne _ _ _ _ hm]
      · intro _ _
        rw [hopts, objGet_objSet_ne _ _ _ _ (by decide), objGet_objSet_ne _ _ _ _ (by decide)]
      · rw [hopts, objGet_objSet_ne _ _ _ _ (by decide), objGet_objSet_self]
      · rw [hopts, objGet_objSet_self]
        simp [requestHeaders, hb]
    · have hopts : (buildRequestData base path method config).options =
          objSet (objSet (objSet base "method" (OptValue.str method)) "body"
            (OptValue.body (BodyValue.formData (buildFormData fb)))) "headers"
            (OptValue.headers []) := by
        simp [buildRequestData, hb, hf]
      refine ⟨?_, ?_, ?_, ?_, Or.inl (by simp [requestHeaders, hb])⟩
      · intro k hm hh hbk
        rw [hopts, objGet_objSet_ne _ _ _ _ hh, objGet_objSet_ne _ _ _ _ hbk,
          objGet_objSet_ne _ _ _ _ hm]
      · intro _ hf2
        simp at hf2
      · rw [hopts, objGet_objSet_ne _ _ _ _ (by decide), objGet_objSet_ne _ _ _ _ (by decide),
          objGet_objSet_self]
      · rw [hopts, objGet_objSet_self]
        simp [requestHeaders, hb]
  · have hopts : (buildRequestData base path method config).options =
        objSet (objSet (objSet base "method" (OptValue.str method)) "body"
          (OptValue.body (BodyValue.jsonText (Json.stringify b)))) "headers"
          (OptValue.headers (objSet [] "Content-Type" "application/json")) := by
      simp [buildRequestData, hb]
    refine ⟨?_, ?_, ?_, ?_, Or.inr (by simp [requestHeaders, hb, objSet])⟩
    · intro k hm hh hbk
      rw [hopts, objGet_objSet_ne _ _ _ _ hh, objGet_objSet_ne _ _ _ _ hbk,
        objGet_objSet_ne _ _ _ _ hm]
    · intro hb2 _
      simp at hb2
    · rw [hopts, objGet_objSet_ne _ _ _ _ (by decide), objGet_objSet_ne _ _ _ _ (by decide),
        objGet_objSet_self]
    · rw [hopts, objGet_objSet_self]
      simp [requestHeaders, hb]

/-- Witness for C9 at a concrete base options object with an extra
field. -/
theorem options_construction_witness :
    objGet (buildRequestData [("mode", OptValue.str "cors")] "p" "GET" none).options "mode" =
      objGet [("mode", OptValue.str "cors")] "mode" :=
  (options_construction [("mode", OptValue.str "cors")] "p" "GET" none).1 "mode"
    (by decide) (by decide) (by decide)

/-- Hexadecimal digit value of a character. -/
def hexVal (c : Char) : Option Nat :=
  if 48 ≤ c.toNat ∧ c.toNat ≤ 57 then some (c.toNat - 48)
  else if 65 ≤ c.toNat ∧ c.toNat ≤ 70 then some (c.toNat - 55)
  else if 97 ≤ c.toNat ∧ c.toNat ≤ 102 then some (c.toNat - 87)
  else none

mutual

/-- Modelled from the spec: first phase of percent-decoding — each `%XX`
escape becomes the byte `XX`, any other character contributes its UTF-8
bytes. -/
def pctDecodeToBytes : List Char → Option (List Nat)
  | [] => some []
  | c :: rest =>
    if c = '%' then pctDecodeEscape rest
    else (pctDecodeToBytes rest).map (fun bs => utf8Bytes c.toNat ++ bs)

/-- Decoding of the two hex digits following a `%`. -/
def pctDecodeEscape : List Char → Option (List Nat)
  | h :: lo :: rest2 =>
    (hexVal h).bind (fun hv => (hexVal lo).bind (fun lv =>
      (pctDecodeToBytes rest2).map (fun bs => (16 * hv + lv) :: bs)))
  | _ => none

end

mutual

/-- Modelled from the spec: second phase of percent-decoding — UTF-8
decoding of the byte sequence back into characters. -/
def utf8DecodeChars : List Nat → Option (List Char)
  | [] => some []
  | b :: rest =>
    if b < 128 then (utf8DecodeChars rest).map (fun cs => Char.ofNat b :: cs)
    else if b < 192 then none
    else if b < 224 then utf8Decode2 b rest
    else if b < 240 then utf8Decode3 b rest
    else if b < 248 then utf8Decode4 b rest
    else none

def utf8Decode2 (b : Nat) : List Nat → Option (List Char)
  | b2 :: rest2 =>
    if 128 ≤ b2 ∧ b2 < 192 then
      (utf8DecodeChars rest2).map (fun cs => Char.ofNat ((b - 192) * 64 + (b2 - 128)) :: cs)
    else none
  | [] => none

def utf8Decode3 (b : Nat) : List Nat → Option (List Char)
  | b2 :: b3 :: rest3 =>
    if (128 ≤ b2 ∧ b2 < 192) ∧ (128 ≤ b3 ∧ b3 < 192) then
      (utf8DecodeChars rest3).map
        (fun cs => Char.ofNat ((b - 224) * 4096 + (b2 - 128) * 64 + (b3 - 128)) :: cs)
    else none
  | _ => none

def utf8Decode4 (b : Nat) : List Nat → Option (List Char)
  | b2 :: b3 :: b4 :: rest4 =>
    if ((128 ≤ b2 ∧ b2 < 192) ∧ (128 ≤ b3 ∧ b3 < 192)) ∧ (128 ≤ b4 ∧ b4 < 192) then
      (utf8DecodeChars rest4).map
        (fun cs =>
          Char.ofNat ((b - 240) * 262144 + (b2 - 128) * 4096 + (b3 - 128) * 64 + (b4 - 128)) :: cs)
    else none
  | _ => none

end

/-- Modelled from the spec: percent-decoding of one component. -/
def decodeComponentChars (l : List Char) : Option (List Char) :=
  (pctDecodeToBytes l).bind utf8DecodeChars

/-- UTF-8 bytes of a character sequence. -/
def utf8OfChars : List Char → List Nat
  | [] => []
  | c :: rest => utf8Bytes c.toNat ++ utf8OfChars rest

theorem char_toNat_lt (c : Char) : c.toNat < 1114112 := by
  have h := c.valid
  rcases h with h | ⟨h1, h2⟩ <;> simp [Char.toNat] <;> omega

theorem utf8Bytes_lt (n : Nat) (hn : n < 1114112) : ∀ b ∈ utf8Bytes n, b < 256 := by
  intro b hb
  rw [utf8Bytes] at hb
  by_cases h1 : n < 128
  · rw [if_pos h1] at hb
    simp at hb
    omega
  · rw [if_neg h1] at hb
    by_cases h2 : n < 2048
    · rw [if_pos h2] at hb
      simp at hb
      rcases hb with hb | hb <;> omega
    · rw [if_neg h2] at hb
      by_cases h3 : n < 65536
      · rw [if_pos h3] at hb
        simp at hb
        rcases hb with hb | hb | hb <;> omega
      · rw [if_neg h3] at hb
        simp at hb
        rcases hb with hb | hb | hb | hb <;> omega

theorem utf8DecodeChars_utf8Bytes (c : Char) (bs : List Nat) :
    utf8DecodeChars (utf8Bytes c.toNat ++ bs) =
      (utf8DecodeChars bs).map (fun cs => c :: cs) := by
  have hlt : c.toNat < 1114112 := char_toNat_lt c
  by_cases h1 : c.toNat < 128
  · rw [utf8Bytes, if_pos h1, List.cons_append, List.nil_append, utf8DecodeChars.eq_def]
    dsimp only []
    rw [if_pos h1]
    simp only [Char.ofNat_toNat]
  · by_cases h2 : c.toNat < 2048
    · rw [utf8Bytes, if_neg h1, if_pos h2, List.cons_append, List.cons_append,
        List.nil_append, utf8DecodeChars.eq_def]
      dsimp only []
      rw [if_neg (by omega), if_neg (by omega), if_pos (by omega), utf8Decode2.eq_def]
      dsimp only []
      rw [if_pos (show 128 ≤ 128 + c.toNat % 64 ∧ 128 + c.toNat % 64 < 192 by omega)]
      have harith : (192 + c.toNat / 64 - 192) * 64 + (128 + c.toNat % 64 - 128) = c.toNat := by
        omega
      simp only [harith, Char.ofNat_toNat]
    · by_cases h3 : c.toNat < 65536
      · rw [utf8Bytes, if_neg h1, if_neg h2, if_pos h3, List.cons_append, List.cons_append,
          List.cons_append, List.nil_append, utf8DecodeChars.eq_def]
        dsimp only []
        rw [if_neg (by omega), if_neg (by omega), if_neg (by omega), if_pos (by omega),
          utf8Decode3.eq_def]
        dsimp only []
        rw [if_pos (show (128 ≤ 128 + c.toNat / 64 % 64 ∧ 128 + c.toNat / 64 % 64 < 192) ∧
            128 ≤ 128 + c.toNat % 64 ∧ 128 + c.toNat % 64 < 192 by omega)]
        have harith : (224 + c.toNat / 4096 - 224) * 4096 +
            (128 + c.toNat / 64 % 64 - 128) * 64 + (128 + c.toNat % 64 - 128) = c.toNat := by
          omega
        simp only [harith, Char.ofNat_toNat]
      · rw [utf8Bytes, if_neg h1, if_neg h2, if_neg h3, List.cons_append, List.cons_append,
          List.cons_append, List.cons_append, List.nil_append, utf8DecodeChars.eq_def]
        dsimp only []
        rw [if_neg (by omega), if_neg (by omega), if_neg (by omega), if_neg (by omega),
          if_pos (by omega), utf8Decode4.eq_def]
        dsimp only []
        rw [if_pos (show ((128 ≤ 128 + c.toNat / 4096 % 64 ∧ 128 + c.toNat / 4096 % 64 < 192) ∧
            128 ≤ 128 + c.toNat / 64 % 64 ∧ 128 + c.toNat / 64 % 64 < 192) ∧
            128 ≤ 128 + c.toNat % 64 ∧ 128 + c.toNat % 64 < 192 by omega)]
        have harith : (240 + c.toNat / 262144 - 240) * 262144 +
            (128 + c.toNat / 4096 % 64 - 128) * 4096 +
            (128 + c.toNat / 64 % 64 - 128) * 64 + (128 + c.toNat % 64 - 128) = c.toNat := by
          omega
        simp only [harith, Char.ofNat_toNat]

theorem utf8DecodeChars_utf8OfChars (l : List Char) :
    utf8DecodeChars (utf8OfChars l) = some l := by
  induction l with
  | nil => rfl
  | cons c rest ih =>
    rw [utf8OfChars, utf8DecodeChars_utf8Bytes, ih]
    rfl

theorem hexVal_hexDigitChar (m : Nat) (hm : m < 16) : hexVal (hexDigitChar m) = some m := by
  interval_cases m <;> decide

theorem pctDecodeToBytes_chunk (b : Nat) (hb : b < 256) (rest : List Char) :
    pctDecodeToBytes (pctEncByte b ++ rest) =
      (pctDecodeToBytes rest).map (fun bs => b :: bs) := by
  rw [pctEncByte, List.cons_append, List.cons_append, List.cons_append, List.nil_append,
    pctDecodeToBytes.eq_def]
  dsimp only []
  rw [if_pos rfl, pctDecodeEscape.eq_def]
  dsimp only []
  rw [hexVal_hexDigitChar _ (by omega), hexVal_hexDigitChar _ (by omega)]
  have harith : 16 * (b / 16) + b % 16 = b := by omega
  simp only [Option.some_bind, harith]

theorem pctDecodeToBytes_chunks (bs : List Nat) (rest : List Char)
    (hbs : ∀ b ∈ bs, b < 256) :
    pctDecodeToBytes ((bs.map pctEncByte).foldr (· ++ ·) [] ++ rest) =
      (pctDecodeToBytes rest).map (fun l2 => bs ++ l2) := by
  induction bs with
  | nil =>
    simp only [List.map_nil, List.foldr_nil, List.nil_append]
    cases pctDecodeToBytes rest <;> simp
  | cons b bs2 ih =>
    simp only [List.map_cons, List.foldr_cons, List.append_assoc]
    rw [pctDecodeToBytes_chunk b (hbs b (by simp))]
    rw [ih (fun x hx => hbs x (by simp [hx]))]
    cases pctDecodeToBytes rest <;> simp

theorem pctDecodeToBytes_encodeChar (c : Char) (rest : List Char) :
    pctDecodeToBytes (encodeChar c ++ rest) =
      (pctDecodeToBytes rest).map (fun bs => utf8Bytes c.toNat ++ bs) := by
  by_cases h : isUnreservedChar c
  · rw [encodeChar, if_pos h, List.cons_append, List.nil_append, pctDecodeToBytes.eq_def]
    dsimp only []
    have hne : ¬ c = '%' := by
      intro hc
      subst hc
      exact absurd h (by decide)
    rw [if_neg hne]
  · rw [encodeChar, if_neg h]
    rw [pctDecodeToBytes_chunks _ _ (utf8Bytes_lt c.toNat (char_toNat_lt c))]

theorem pctDecodeToBytes_encodeChars_gen (l : List Char) (rest : List Char) :
    pctDecodeToBytes (encodeChars l ++ rest) =
      (pctDecodeToBytes rest).map (fun bs => utf8OfChars l ++ bs) := by
  induction l with
  | nil =>
    simp only [encodeChars, List.nil_append]
    cases pctDecodeToBytes rest <;> simp [utf8OfChars]
  | cons c l2 ih =>
    simp only [encodeChars, List.append_assoc]
    rw [pctDecodeToBytes_encodeChar, ih]
    cases pctDecodeToBytes rest <;> simp [utf8OfChars]

theorem pctDecodeToBytes_encodeChars (l : List Char) :
    pctDecodeToBytes (encodeChars l) = some (utf8OfChars l) := by
  have h := pctDecodeToBytes_encodeChars_gen l []
  simp only [List.append_nil] at h
  rw [h]
  show (some []).map (fun bs => utf8OfChars l ++ bs) = _
  simp

theorem decodeComponentChars_encodeChars (l : List Char) :
    decodeComponentChars (encodeChars l) = some l := by
  rw [decodeComponentChars, pctDecodeToBytes_encodeChars]
  show utf8DecodeChars (utf8OfChars l) = some l
  exact utf8DecodeChars_utf8OfChars l

theorem mem_foldr_append (x : α) (ls : List (List α)) :
    x ∈ ls.foldr (· ++ ·) [] → ∃ l ∈ ls, x ∈ l := by
  induction ls with
  | nil => simp
  | cons l ls ih =>
    simp only [List.foldr_cons, List.mem_append]
    rintro (h | h)
    · exact ⟨l, by simp, h⟩
    · obtain ⟨l2, hl2, hx⟩ := ih h
      exact ⟨l2, by simp [hl2], hx⟩

theorem not_mem_encodeChars (x : Char) (hx : isUnreservedChar x = false) (hxp : x ≠ '%')
    (hhex : ∀ m, m < 16 → hexDigitChar m ≠ x) : ∀ l : List Char, x ∉ encodeChars l := by
  intro l
  induction l with
  | nil => simp [encodeChars]
  | cons c rest ih =>
    simp only [encodeChars, List.mem_append]
    rintro (hc | hc)
    · rw [encodeChar] at hc
      by_cases h : isUnreservedChar c
      · rw [if_pos h] at hc
        simp only [List.mem_singleton] at hc
        subst hc
        rw [hx] at h
        simp at h
      · rw [if_neg h] at hc
        obtain ⟨chunk, hchunk, hmem⟩ := mem_foldr_append x _ hc
        obtain ⟨bb, hbb, rfl⟩ := List.mem_map.mp hchunk
        have hblt : bb < 256 := utf8Bytes_lt c.toNat (char_toNat_lt c) bb hbb
        rw [pctEncByte] at hmem
        simp only [List.mem_cons, List.mem_singleton, List.not_mem_nil, or_false] at hmem
        rcases hmem with h1 | h1 | h1
        · exact hxp h1
        · exact hhex (bb / 16) (by omega) h1.symm
        · exact hhex (bb % 16) (by omega) h1.symm
    · exact ih hc

theorem amp_not_mem_encodeChars (l : List Char) : '&' ∉ encodeChars l :=
  not_mem_encodeChars '&' (by decide) (by decide)
    (fun m hm => by interval_cases m <;> decide) l

theorem eqsign_not_mem_encodeChars (l : List Char) : '=' ∉ encodeChars l :=
  not_mem_encodeChars '=' (by decide) (by decide)
    (fun m hm => by interval_cases m <;> decide) l

/-- Modelled from the spec: splitting a character sequence at a
separator. -/
def splitOnChar (sep : Char) : List Char → List (List Char)
  | [] => [[]]
  | c :: rest =>
    match splitOnChar sep rest with
    | [] => [[]]
    | h :: t => if c = sep then [] :: h :: t else (c :: h) :: t

theorem splitOnChar_ne_nil (sep : Char) (l : List Char) : splitOnChar sep l ≠ [] := by
  induction l with
  | nil => simp [splitOnChar]
  | cons c rest ih =>
    rw [splitOnChar]
    cases hs : splitOnChar sep rest with
    | nil => simp
    | cons h t => by_cases hc : c = sep <;> simp [hc]

theorem splitOnChar_of_not_mem (sep : Char) (l : List Char) (h : sep ∉ l) :
    splitOnChar sep l = [l] := by
  induction l with
  | nil => rfl
  | cons c rest ih =>
    simp only [List.mem_cons] at h
    push_neg at h
    rw [splitOnChar, ih h.2]
    have hc : ¬ c = sep := fun hh => h.1 hh.symm
    simp [hc]

theorem splitOnChar_append (sep : Char) (xs ys : List Char) (h : sep ∉ xs) :
    splitOnChar sep (xs ++ sep :: ys) = xs :: splitOnChar sep ys := by
  induction xs with
  | nil =>
    simp only [List.nil_append]
    rw [splitOnChar]
    cases hs : splitOnChar sep ys with
    | nil => exact absurd hs (splitOnChar_ne_nil sep ys)
    | cons h2 t => simp
  | cons c rest ih =>
    simp only [List.mem_cons] at h
    push_neg at h
    simp only [List.cons_append]
    rw [splitOnChar, ih h.2]
    have hc : ¬ c = sep := fun hh => h.1 hh.symm
    simp [hc]

/-- Character-level form of `Array.prototype.join` with a one-character
separator. -/
def joinData (sep : Char) : List (List Char) → List Char
  | [] => []
  | [p] => p
  | p :: rest => p ++ sep :: joinData sep rest

theorem joinSep_amp_data (strs : List String) :
    (joinSep "&" strs).data = joinData '&' (strs.map String.data) := by
  induction strs with
  | nil => rfl
  | cons s rest ih =>
    cases rest with
    | nil => rfl
    | cons s2 rest2 =>
      show (s ++ "&" ++ joinSep "&" (s2 :: rest2)).data = _
      rw [String.data_append, String.data_append, ih]
      show s.data ++ ['&'] ++ joinData '&' (List.map String.data (s2 :: rest2)) = _
      rw [List.map_cons]
      show _ = s.data ++ '&' :: joinData '&' (List.map String.data (s2 :: rest2))
      simp [List.append_assoc]

theorem splitOnChar_joinData (sep : Char) :
    ∀ parts : List (List Char), parts ≠ [] → (∀ p ∈ parts, sep ∉ p) →
      splitOnChar sep (joinData sep parts) = parts
  | [], hne, _ => absurd rfl hne
  | [p], _, hsep => by
      show splitOnChar sep p = [p]
      exact splitOnChar_of_not_mem sep p (hsep p (by simp))
  | p :: p2 :: rest2, _, hsep => by
      show splitOnChar sep (p ++ sep :: joinData sep (p2 :: rest2)) = _
      rw [splitOnChar_append sep p _ (hsep p (by simp))]
      rw [splitOnChar_joinData sep (p2 :: rest2) (by simp)
        (fun q hq => hsep q (by simp [List.mem_cons] at hq ⊢; tauto))]

/-- Character sequence of one encoded `key=value` pair. -/
def encPairChars (kv : String × String) : List Char :=
  encodeChars kv.1.data ++ '=' :: encodeChars kv.2.data

/-- Modelled from the spec: parsing one `key=value` pair — split on `=`
and percent-decode each side. -/
def decodePair (pair : List Char) : Option (String × String) :=
  match splitOnChar '=' pair with
  | [kcs, vcs] =>
    match decodeComponentChars kcs, decodeComponentChars vcs with
    | some k, some v => some (String.mk k, String.mk v)
    | _, _ => none
  | _ => none

/-- Modelled from the spec: parsing the pair list of a query string. -/
def decodePairs : List (List Char) → Option (List (String × String))
  | [] => some []
  | pair :: rest =>
    match decodePair pair, decodePairs rest with
    | some kv, some kvs => some (kv :: kvs)
    | _, _ => none

/-- Modelled from the spec: the re-parser of the testable property —
split the query string on `&`, split each pair on `=`, percent-decode
key and value; the empty string parses to no pairs. -/
def decodeQuery (s : String) : Option (List (String × String)) :=
  if s.data = [] then some []
  else decodePairs (splitOnChar '&' s.data)

theorem decodePair_encPairChars (kv : String × String) :
    decodePair (encPairChars kv) = some kv := by
  rw [decodePair, encPairChars]
  rw [splitOnChar_append '=' _ _ (eqsign_not_mem_encodeChars kv.1.data)]
  rw [splitOnChar_of_not_mem '=' _ (eqsign_not_mem_encodeChars kv.2.data)]
  dsimp only []
  rw [decodeComponentChars_encodeChars, decodeComponentChars_encodeChars]

theorem decodePairs_map (l : List (String × String)) :
    decodePairs (l.map encPairChars) = some l := by
  induction l with
  | nil => rfl
  | cons kv rest ih =>
    rw [List.map_cons, decodePairs, decodePair_encPairChars, ih]

theorem encPairChars_ne_nil (kv : String × String) : encPairChars kv ≠ [] := by
  simp [encPairChars]

theorem joinData_ne_nil (sep : Char) (p : List Char) (rest : List (List Char))
    (hp : p ≠ []) : joinData sep (p :: rest) ≠ [] := by
  cases rest with
  | nil => exact hp
  | cons p2 rest2 =>
    show p ++ sep :: joinData sep (p2 :: rest2) ≠ []
    simp

theorem amp_not_mem_encPairChars (kv : String × String) : '&' ∉ encPairChars kv := by
  rw [encPairChars]
  simp only [List.mem_append, List.mem_cons]
  rintro (h | h | h)
  · exact amp_not_mem_encodeChars kv.1.data h
  · exact absurd h (by decide)
  · exact amp_not_mem_encodeChars kv.2.data h

theorem urlParams_data (params : HttpParams) :
    (urlParams params).data = joinData '&' ((concatedParams params).map encPairChars) := by
  rw [urlParams, joinSep_amp_data, List.map_map]
  have hfun : (String.data ∘ fun kv : String × String =>
      encodeURIComponent kv.1 ++ "=" ++ encodeURIComponent kv.2) = encPairChars := by
    funext kv
    show (encodeURIComponent kv.1 ++ "=" ++ encodeURIComponent kv.2).data = encPairChars kv
    rw [String.data_append, String.data_append]
    show encodeChars kv.1.data ++ ['='] ++ encodeChars kv.2.data = _
    rw [encPairChars]
    simp [List.append_assoc]
  rw [hfun]

theorem decodeQuery_urlParams (params : HttpParams) :
    decodeQuery (urlParams params) = some (concatedParams params) := by
  cases hl : concatedParams params with
  | nil =>
    have hempty : urlParams params = "" := by
      rw [urlParams, hl]
      rfl
    rw [hempty]
    rfl
  | cons kv rest =>
    have hdata := urlParams_data params
    rw [hl] at hdata
    have hne : (urlParams params).data ≠ [] := by
      rw [hdata, List.map_cons]
      exact joinData_ne_nil '&' _ _ (encPairChars_ne_nil kv)
    rw [decodeQuery, if_neg hne, hdata, List.map_cons]
    rw [splitOnChar_joinData '&' (encPairChars kv :: rest.map encPairChars) (by simp)
      (by
        intro q hq
        rcases List.mem_cons.mp hq with rfl | hq2
        · exact amp_not_mem_encPairChars kv
        · obtain ⟨kv2, _, rfl⟩ := List.mem_map.mp hq2
          exact amp_not_mem_encPairChars kv2)]
    rw [show encPairChars kv :: List.map encPairChars rest =
      List.map encPairChars (kv :: rest) from rfl]
    rw [decodePairs_map]

/-- C7: encoding with `urlParams` then re-parsing (splitting on `&`,
then `=`, percent-decoding both sides) recovers exactly the filtered,
comma-joined representation of the input mapping, and encoding is
injective over that representation. -/
theorem urlParams_roundtrip :
    (∀ params : HttpParams, decodeQuery (urlParams params) = some (concatedParams params)) ∧
    (∀ p1 p2 : HttpParams, urlParams p1 = urlParams p2 →
      concatedParams p1 = concatedParams p2) := by
  refine ⟨decodeQuery_urlParams, ?_⟩
  intro p1 p2 h
  have h1 := decodeQuery_urlParams p1
  rw [h, decodeQuery_urlParams p2] at h1
  exact (Option.some_inj.mp h1).symm

/-- Witness for C7: two mappings with the same encoding have the same
filtered representation. -/
theorem urlParams_roundtrip_witness :
    concatedParams [("a", HttpValue.num 1)] = concatedParams [("a", HttpValue.str "1")] :=
  urlParams_roundtrip.2 [("a", HttpValue.num 1)] [("a", HttpValue.str "1")] (by decide)

end DashRestful
